import Mathlib

/-!
Shallow embedding of the query-assembly, template and history logic of the
`google_dork_builder` application (`src/main.rs`), together with proofs of the
specification claims about it.

Modelling conventions:
* Rust `String` values are Lean `String`s; the string operations the source
  relies on (`trim`, `split_whitespace`, `strip_prefix`, `to_ascii_lowercase`,
  `is_empty`) are re-implemented structurally on the underlying character list
  so that the kernel can evaluate them.  Whitespace is the ASCII whitespace
  class (space, tab, CR, LF), matching every character the source ever feeds
  to these functions.
* `Vec<T>` is `List T`; `parts.join(glue)` is `joinSep glue parts`.
* Fallible disk I/O is modelled by explicit `Option` inputs; Rust panics
  (out-of-bounds indexing) are modelled by `Option` results.
* The static `TEMPLATES` catalog lives in `templates.rs`, which is not among
  the sources at hand; every operation that touches it takes the catalog as an
  explicit parameter (the spec describes it as an immutable, fixed-at-startup
  list of templates).
-/

namespace DorkBuilder

/-- ASCII whitespace, the class used to model Rust's whitespace trimming and
splitting on the characters this program actually handles. -/
def isWs (c : Char) : Bool := c.isWhitespace

/-- Model of Rust `str::trim`: drop leading and trailing whitespace. -/
def trimStr (s : String) : String :=
  ⟨((s.data.dropWhile isWs).reverse.dropWhile isWs).reverse⟩

/-- Character-list core of `str::strip_prefix`. -/
def stripPreChars : List Char → List Char → Option (List Char)
  | [], s => some s
  | _ :: _, [] => none
  | p :: ps, c :: cs => if c = p then stripPreChars ps cs else none

/-- Model of Rust `str::strip_prefix`: `some` of the remainder when `s` starts
with `p`, otherwise `none`. -/
def stripPre (p s : String) : Option String :=
  (stripPreChars p.data s.data).map fun cs => ⟨cs⟩

/-- Character-list core of `str::split_whitespace`: the maximal runs of
non-whitespace characters, in order. -/
def wsTokens : List Char → List (List Char)
  | [] => []
  | [c] => if isWs c then [] else [[c]]
  | c :: c2 :: cs =>
    if isWs c then wsTokens (c2 :: cs)
    else if isWs c2 then [c] :: wsTokens (c2 :: cs)
    else
      match wsTokens (c2 :: cs) with
      | [] => [[c]]
      | t :: ts => (c :: t) :: ts

/-- Model of Rust `str::split_whitespace` on strings. -/
def tokensOf (q : String) : List String :=
  (wsTokens q.data).map fun cs => ⟨cs⟩

/-- Model of Rust `Vec::join` on strings (`[].join = ""`, singleton kept
as-is, otherwise interleave the separator). -/
def joinSep (sep : String) : List String → String
  | [] => ""
  | [a] => a
  | a :: b :: rest => a ++ sep ++ joinSep sep (b :: rest)

/-- `DorkTemplate` (main.rs lines 12-21): one entry of the template catalog. -/
structure DorkTemplate where
  name : String
  category : String
  site : String
  inurl : String
  intitle : String
  filetype : String
  intext : String
deriving DecidableEq

/-- Model of Rust `str::eq_ignore_ascii_case`: equality after ASCII
lower-casing (Lean's `Char.toLower` lowers exactly the ASCII letters). -/
def eq_ignore_ascii_case (a b : String) : Bool :=
  a.data.map Char.toLower == b.data.map Char.toLower

/-- `DorkTemplate::matches_category` (main.rs lines 24-26). -/
def DorkTemplate.matches_category (d : DorkTemplate) (category : String) : Bool :=
  eq_ignore_ascii_case d.category category

/-- `filter_dorks_by_category` (main.rs lines 29-35). -/
def filter_dorks_by_category (dorks : List DorkTemplate) (category : String) :
    List DorkTemplate :=
  dorks.filter fun d => d.matches_category category

/-- Model of Rust `Vec::dedup`: remove consecutive duplicates. -/
def dedupAdj : List String → List String
  | [] => []
  | [a] => [a]
  | a :: b :: rest =>
    if a = b then dedupAdj (b :: rest) else a :: dedupAdj (b :: rest)

/-- `unique_categories` (main.rs lines 37-42): collect the categories, sort
(`sort_unstable`; Rust's byte-lexicographic `String` order coincides with
Lean's `String` order on the sorted result), then drop adjacent duplicates. -/
def unique_categories (dorks : List DorkTemplate) : List String :=
  dedupAdj ((dorks.map fun d => d.category).mergeSort)

/-- `DorkData` (main.rs lines 44-52): the mutable field set. -/
structure DorkData where
  site : String
  inurl : String
  intitle : String
  filetype : String
  intext : String
  operator : String
deriving DecidableEq

/-- `#[derive(Default)]` for `DorkData`: all fields empty. -/
def DorkData.default : DorkData := ⟨"", "", "", "", "", ""⟩

/-- The application state (`DorkApp`, main.rs lines 54-62).  `saved` models
the contents of the persisted `dork_history.json` as written by this session;
the unused `available_operators` field is omitted. -/
structure DorkApp where
  data : DorkData
  query : String
  history : List String
  saved : List String
  selected_template : Nat
  selected_history : Nat
  selected_category : String
deriving DecidableEq

/-- `DorkApp::default` (main.rs lines 145-155). -/
def DorkApp.default : DorkApp :=
  { data := DorkData.default, query := "", history := [], saved := [],
    selected_template := 0, selected_history := 0, selected_category := "" }

/-- The pure query-construction part of `DorkApp::generate_query`
(main.rs lines 65-91): the five fields in fixed order, `site`/`filetype`
unquoted, `inurl`/`intitle`/`intext` wrapped in double quotes, joined with a
single space or with the trimmed operator surrounded by spaces. -/
def build (d : DorkData) : String :=
  let op := trimStr d.operator
  let glue := if op.data.isEmpty then " " else " " ++ op ++ " "
  let parts : List String := []
  let parts := if !d.site.data.isEmpty then parts ++ ["site:" ++ d.site] else parts
  let parts := if !d.inurl.data.isEmpty then parts ++ ["inurl:\"" ++ d.inurl ++ "\""] else parts
  let parts := if !d.intitle.data.isEmpty then parts ++ ["intitle:\"" ++ d.intitle ++ "\""] else parts
  let parts := if !d.filetype.data.isEmpty then parts ++ ["filetype:" ++ d.filetype] else parts
  let parts := if !d.intext.data.isEmpty then parts ++ ["intext:\"" ++ d.intext ++ "\""] else parts
  joinSep glue parts

/-- The history-update step of `DorkApp::generate_query` (main.rs lines
93-96): push the query unless it is empty or already present. -/
def historyAppend (history : List String) (q : String) : List String :=
  if !q.data.isEmpty && !history.contains q then history ++ [q] else history

/-- `DorkApp::generate_query` (main.rs lines 65-97) as a state transition:
rebuild the query string from the field set, and in the push case also
persist the new history (`save_history`, whose errors the source discards). -/
def generate_query (app : DorkApp) : DorkApp :=
  if !(build app.data).data.isEmpty && !app.history.contains (build app.data) then
    { app with query := build app.data, history := app.history ++ [build app.data],
               saved := app.history ++ [build app.data] }
  else
    { app with query := build app.data }

/-- Disk outcome fed to `load_history`: `none` models a missing/unreadable
file, `some none` a file whose contents fail to parse as a JSON array of
strings, `some (some l)` a successful parse. -/
def load_history (app : DorkApp) (file : Option (Option (List String))) : DorkApp :=
  match file with
  | some (some parsed) => { app with history := parsed }
  | _ => app

/-- The history visible right after startup: `DorkApp::default` starts from
`[]` and `load_history` (main.rs lines 104-110) overwrites it only on a
successful read-and-parse. -/
def loadResult (file : Option (Option (List String))) : List String :=
  match file with
  | some (some parsed) => parsed
  | _ => []

/-- `DorkApp::apply_template` (main.rs lines 112-119): overwrite the five
template fields of the field set from `TEMPLATES[index]` — note: from the
FULL catalog, not the filtered view.  The catalog is a parameter (its static
contents are in `templates.rs`, not among the sources); `none` models the
Rust panic on an out-of-range index. -/
def apply_template (catalog : List DorkTemplate) (app : DorkApp) (index : Nat) :
    Option DorkApp :=
  (catalog[index]?).map fun tpl =>
    { app with data := { app.data with
        inurl := tpl.inurl, intitle := tpl.intitle, filetype := tpl.filetype,
        site := tpl.site, intext := tpl.intext } }

/-- The template-selection transition of `DorkApp::update` (main.rs lines
199-202): when the selected index changes to `i`, run `apply_template(i)`
and then `generate_query`. -/
def select_template (catalog : List DorkTemplate) (app : DorkApp) (i : Nat) :
    Option DorkApp :=
  (apply_template catalog { app with selected_template := i } i).map generate_query

/-- One loop iteration of `DorkApp::apply_query_string` (main.rs lines
127-142): dispatch a single whitespace-separated token. -/
def applyToken (d : DorkData) (token : String) : DorkData :=
  match stripPre "inurl:" token with
  | some rest => { d with inurl := rest }
  | none =>
  match stripPre "intitle:" token with
  | some rest => { d with intitle := rest }
  | none =>
  match stripPre "filetype:" token with
  | some rest => { d with filetype := rest }
  | none =>
  match stripPre "site:" token with
  | some rest => { d with site := rest }
  | none =>
    { d with intext := if d.intext.data.isEmpty then token else d.intext ++ " " ++ token }

/-- `DorkApp::apply_query_string` (main.rs lines 121-143): clear
`inurl`/`intitle`/`filetype`/`site` (but not `intext` or `operator`), then
fold the whitespace-separated tokens through `applyToken`. -/
def apply_query_string (d : DorkData) (query : String) : DorkData :=
  let d0 := { d with inurl := "", intitle := "", filetype := "", site := "" }
  (tokensOf query).foldl applyToken d0

/-! Specification-side descriptions, written from the spec's words, used to
state the claims against the definitions above. -/

/-- From the spec: the segments `build` must emit — one per non-empty field,
in the fixed order site, inurl, intitle, filetype, intext, with the value
double-quoted exactly for inurl/intitle/intext. -/
def specSegments (d : DorkData) : List String :=
  (if d.site = "" then [] else ["site:" ++ d.site]) ++
  (if d.inurl = "" then [] else ["inurl:\"" ++ d.inurl ++ "\""]) ++
  (if d.intitle = "" then [] else ["intitle:\"" ++ d.intitle ++ "\""]) ++
  (if d.filetype = "" then [] else ["filetype:" ++ d.filetype]) ++
  (if d.intext = "" then [] else ["intext:\"" ++ d.intext ++ "\""])

/-- From the spec: the separator `build` must use — a single space when the
trimmed operator is empty, otherwise the trimmed operator surrounded by
single spaces. -/
def specSep (d : DorkData) : String :=
  if trimStr d.operator = "" then " " else " " ++ trimStr d.operator ++ " "

/-- From the spec: the remainder of the last token of `ts` that starts with
`p` (last occurrence wins), if any. -/
def lastRemainder (p : String) : List String → Option String
  | [] => none
  | t :: ts =>
    match lastRemainder p ts with
    | some r => some r
    | none => stripPre p t

/-- From the spec: a token that matches none of the four dispatched field
markers and therefore lands in `intext`. -/
def isPlain (t : String) : Bool :=
  (stripPre "inurl:" t).isNone && (stripPre "intitle:" t).isNone &&
  (stripPre "filetype:" t).isNone && (stripPre "site:" t).isNone

/-- Space-join a list of tokens onto an existing `intext` value (no leading
space when the existing value is empty). -/
def joinInto (base : String) (ts : List String) : String :=
  ts.foldl (fun acc t => if acc.data.isEmpty then t else acc ++ " " ++ t) base

/-- The histories reachable from a loaded history `h0` by any sequence of
append operations (every history mutation in the source goes through the
push in `generate_query`, i.e. through `historyAppend`). -/
inductive HistReachable (h0 : List String) : List String → Prop
  | init : HistReachable h0 h0
  | step (h : List String) (q : String) :
      HistReachable h0 h → HistReachable h0 (historyAppend h q)

/-- A two-category demo catalog (the real `TEMPLATES` table lives in
`templates.rs`, outside the sources at hand). -/
def tplA : DorkTemplate := ⟨"Tpl A", "CatA", "siteA.com", "", "", "", ""⟩

def tplB : DorkTemplate := ⟨"Tpl B", "CatB", "siteB.com", "", "", "", ""⟩

def demoCatalog : List DorkTemplate := [tplA, tplB]

def demoApp : DorkApp :=
  { DorkApp.default with
    selected_category := "CatB"
    data := { DorkData.default with operator := "OR" } }

/-! Helper lemmas. -/

theorem eq_empty_iff_data (s : String) : s = "" ↔ s.data = [] := by
  constructor
  · intro h; rw [h]
  · intro h; exact String.ext h

theorem data_isEmpty_true_iff (s : String) : s.data.isEmpty = true ↔ s = "" := by
  rw [List.isEmpty_iff, eq_empty_iff_data]

theorem data_eq_nil_iff (s : String) : s.data = [] ↔ s = "" :=
  (eq_empty_iff_data s).symm

theorem data_isEmpty_false_iff (s : String) : s.data.isEmpty = false ↔ s ≠ "" := by
  rw [← Bool.not_eq_true, not_iff_not, data_isEmpty_true_iff]

theorem contains_true_iff (l : List String) (a : String) : l.contains a = true ↔ a ∈ l := by
  simp [List.contains]

theorem contains_false_iff (l : List String) (a : String) : l.contains a = false ↔ a ∉ l := by
  rw [← Bool.not_eq_true, not_iff_not, contains_true_iff]

theorem pushCond_iff (h : List String) (q : String) :
    (!q.data.isEmpty && !h.contains q) = true ↔ q ≠ "" ∧ q ∉ h := by
  rw [Bool.and_eq_true, Bool.not_eq_true', Bool.not_eq_true',
    data_isEmpty_false_iff, contains_false_iff]

/-- The history effect of `generate_query` is exactly `historyAppend`. -/
theorem generate_query_history (app : DorkApp) :
    (generate_query app).history = historyAppend app.history (build app.data) := by
  unfold generate_query historyAppend
  cases hc : (!(build app.data).data.isEmpty && !app.history.contains (build app.data)) <;>
    simp

/-! ### C9: history load -/

/-- C9: history load never raises: starting from the default (empty) state,
a missing file or a failed parse leaves the loaded history empty, and a
successful parse yields exactly the persisted sequence in order. -/
theorem load_history_correct (l : List String) :
    (load_history DorkApp.default none).history = [] ∧
    (load_history DorkApp.default (some none)).history = [] ∧
    (load_history DorkApp.default (some (some l))).history = l ∧
    ∀ file, (load_history DorkApp.default file).history = loadResult file := by
  refine ⟨rfl, rfl, rfl, fun file => ?_⟩
  rcases file with _ | (_ | l) <;> rfl

/-! ### C10: frame effect of `generate_query` -/

/-- C10: `generate_query` always overwrites the displayed query with the
newly built string (also when empty or a duplicate), changes no field-set
field and no selection state, updates the history exactly as
`historyAppend`, and touches the persisted file only in the non-empty,
not-yet-present case. -/
theorem generate_query_frame (app : DorkApp) :
    (generate_query app).query = build app.data ∧
    (generate_query app).data = app.data ∧
    (generate_query app).selected_template = app.selected_template ∧
    (generate_query app).selected_history = app.selected_history ∧
    (generate_query app).selected_category = app.selected_category ∧
    (generate_query app).history = historyAppend app.history (build app.data) ∧
    (generate_query app).saved =
      (if build app.data ≠ "" ∧ build app.data ∉ app.history
        then app.history ++ [build app.data] else app.saved) := by
  have hiff := pushCond_iff app.history (build app.data)
  unfold generate_query historyAppend
  cases hc : (!(build app.data).data.isEmpty && !app.history.contains (build app.data)) with
  | false =>
    rw [hc] at hiff
    simp only [Bool.false_eq_true, false_iff] at hiff
    simp [hiff]
  | true =>
    rw [hc] at hiff
    simp only [true_iff] at hiff
    simp [hiff]

/-! ### C5: `append` semantics -/

/-- C5 (amended): appending the empty string is a no-op, appending an
already-present non-empty string is a no-op, and a non-empty absent string
is placed at the end with all existing entries unmoved; consequently, when n
`q` is non-empty and occurred at most once beforehand, after two successive
appends the history contains `q` exactly once. -/
theorem historyAppend_spec (h : List String) (q : String) :
    historyAppend h "" = h ∧
    (q ≠ "" → q ∈ h → historyAppend h q = h) ∧
    (q ≠ "" → q ∉ h → historyAppend h q = h ++ [q]) ∧
    (q ≠ "" → h.count q ≤ 1 →
      (historyAppend (historyAppend h q) q).count q = 1) := by
  have appendEq : ∀ hs : List String, ∀ p : String, p ≠ "" → p ∉ hs →
      historyAppend hs p = hs ++ [p] := by
    intro hs p hne hmem
    unfold historyAppend
    rw [if_pos ((pushCond_iff hs p).mpr ⟨hne, hmem⟩)]
  have keepEq : ∀ hs : List String, ∀ p : String, p ∈ hs → historyAppend hs p = hs := by
    intro hs p hmem
    unfold historyAppend
    rw [if_neg]
    rw [pushCond_iff]
    exact fun hcontra => hcontra.2 hmem
  refine ⟨?_, fun _ => keepEq h q, appendEq h q, fun hne hcount => ?_⟩
  · unfold historyAppend
    rw [if_neg]
    rw [pushCond_iff]
    exact fun hcontra => hcontra.1 rfl
  · by_cases hmem : q ∈ h
    · rw [keepEq h q hmem, keepEq h q hmem]
      exact Nat.le_antisymm hcount (List.count_pos_iff.mpr hmem)
    · rw [appendEq h q hne hmem, keepEq _ q (by simp)]
      rw [List.count_append, List.count_eq_zero.mpr hmem]
      simp

/-- Witness for C5 at concrete inputs. -/
theorem historyAppend_spec_witness :
    historyAppend ["a"] "" = ["a"] ∧
    historyAppend ["a"] "a" = ["a"] ∧
    historyAppend ["a"] "b" = ["a", "b"] ∧
    (historyAppend (historyAppend ["a"] "b") "b").count "b" = 1 :=
  ⟨(historyAppend_spec ["a"] "b").1,
   (historyAppend_spec ["a"] "a").2.1 (by decide) (by decide),
   (historyAppend_spec ["a"] "b").2.2.1 (by decide) (by decide),
   (historyAppend_spec ["a"] "b").2.2.2 (by decide) (by decide)⟩

/-- C5 counterexample to the claim as stated: after two appends the history
does not always contain the candidate exactly once — an empty candidate is
never inserted, and a candidate already duplicated in the loaded history
stays duplicated. -/
theorem historyAppend_twice_not_exactly_once :
    (historyAppend (historyAppend [] "") "").count "" = 0 ∧
    (historyAppend (historyAppend ["x", "x"] "x") "x").count "x" = 2 := by
  decide

/-! ### C6: no-duplicates invariant -/

/-- C6 (amended): every history reachable from the startup load by append
operations is duplicate-free, provided the loaded sequence itself was
duplicate-free (which a missing or corrupt file trivially is). -/
theorem history_nodup_invariant (file : Option (Option (List String)))
    (h : List String) (hr : HistReachable (loadResult file) h)
    (hnd : (loadResult file).Nodup) : h.Nodup := by
  induction hr with
  | init => exact hnd
  | step hs q _ ih =>
    unfold historyAppend
    cases hc : (!q.data.isEmpty && !hs.contains q) with
    | false => simpa using ih
    | true =>
      have hmem : q ∉ hs := ((pushCond_iff hs q).mp hc).2
      simp only [if_pos]
      rw [List.nodup_append]
      exact ⟨ih, List.nodup_singleton q, fun a ha hb => by
        rw [List.mem_singleton] at hb; exact hmem (hb ▸ ha)⟩

/-- Witness for C6: one load (missing file) and one append. -/
theorem history_nodup_invariant_witness :
    (historyAppend (loadResult none) "a").Nodup :=
  history_nodup_invariant none _
    (HistReachable.step _ _ HistReachable.init) (by decide)

/-- C6 counterexample to the claim as stated: loading a file that itself
contains a duplicate yields a reachable post-load history with a repeated
string. -/
theorem history_dup_after_load :
    HistReachable (loadResult (some (some ["a", "a"]))) ["a", "a"] ∧
    ¬ (["a", "a"] : List String).Nodup :=
  ⟨HistReachable.init, by decide⟩

/-! ### C7: `unique_categories` -/

theorem mem_dedupAdj (x : String) : ∀ l : List String, x ∈ dedupAdj l ↔ x ∈ l
  | [] => Iff.rfl
  | [a] => Iff.rfl
  | a :: b :: rest => by
    by_cases hab : a = b
    · rw [dedupAdj, if_pos hab, mem_dedupAdj x (b :: rest)]
      subst hab
      simp [List.mem_cons]
    · rw [dedupAdj, if_neg hab, List.mem_cons, List.mem_cons,
        mem_dedupAdj x (b :: rest)]

theorem sorted_lt_dedupAdj :
    ∀ l : List String, l.Sorted (· ≤ ·) → (dedupAdj l).Sorted (· < ·)
  | [], _ => List.sorted_nil
  | [a], _ => List.sorted_singleton a
  | a :: b :: rest, h => by
    have htail : (b :: rest).Sorted (· ≤ ·) := (List.sorted_cons.mp h).2
    have hhead : ∀ x ∈ b :: rest, a ≤ x := (List.sorted_cons.mp h).1
    by_cases hab : a = b
    · rw [dedupAdj, if_pos hab]
      exact sorted_lt_dedupAdj (b :: rest) htail
    · rw [dedupAdj, if_neg hab]
      refine List.sorted_cons.mpr ⟨?_, sorted_lt_dedupAdj (b :: rest) htail⟩
      intro x hx
      rw [mem_dedupAdj] at hx
      have hax : a < b := lt_of_le_of_ne (hhead b (List.mem_cons_self b rest)) hab
      rcases List.mem_cons.mp hx with hxb | hxr
      · exact hxb ▸ hax
      · exact lt_of_lt_of_le hax ((List.sorted_cons.mp htail).1 x hxr)

/-- C7: `unique_categories` returns the category labels of the input sorted
ascending (lexicographically: the `String` order compares the character
lists), with no duplicate entries even when equal labels are non-adjacent
in the input, and with exactly the input's categories as members. -/
theorem unique_categories_correct (dorks : List DorkTemplate) :
    (unique_categories dorks).Sorted (· ≤ ·) ∧
    (unique_categories dorks).Nodup ∧
    ∀ c, c ∈ unique_categories dorks ↔ c ∈ dorks.map fun d => d.category := by
  have hs : ((dorks.map fun d => d.category).mergeSort).Sorted (· ≤ ·) :=
    List.sorted_mergeSort' _
  have hlt := sorted_lt_dedupAdj _ hs
  refine ⟨List.Pairwise.imp le_of_lt hlt, List.Pairwise.imp ne_of_lt hlt, fun c => ?_⟩
  rw [unique_categories, mem_dedupAdj, (List.mergeSort_perm _ _).mem_iff]

/-! ### C8: `filter_dorks_by_category` -/

/-- C8: `filter_dorks_by_category` keeps exactly the templates whose
category equals the argument after ASCII lower-casing (a sublist, so the
original relative order is preserved); in particular filtering by "Admin"
and by "admin" gives identical results. -/
theorem filter_dorks_by_category_correct (dorks : List DorkTemplate) (category : String) :
    List.Sublist (filter_dorks_by_category dorks category) dorks ∧
    (∀ d, d ∈ filter_dorks_by_category dorks category ↔
      d ∈ dorks ∧ d.category.data.map Char.toLower = category.data.map Char.toLower) ∧
    filter_dorks_by_category dorks "Admin" = filter_dorks_by_category dorks "admin" := by
  refine ⟨List.filter_sublist _, fun d => ?_, ?_⟩
  · rw [filter_dorks_by_category, List.mem_filter]
    simp [DorkTemplate.matches_category, eq_ignore_ascii_case]
  · refine List.filter_congr fun d _ => ?_
    show d.matches_category "Admin" = d.matches_category "admin"
    have hlow : ("Admin" : String).data.map Char.toLower =
        ("admin" : String).data.map Char.toLower := by decide
    simp [DorkTemplate.matches_category, eq_ignore_ascii_case, hlow]

/-! ### C2: `build` -/

/-- C2: `build` joins — with a single space when the trimmed operator is
empty and with the space-surrounded trimmed operator otherwise — exactly
one segment per non-empty field, in the fixed order site, inurl, intitle,
filetype, intext, quoting only the inurl/intitle/intext values; when every
field is empty the result is the empty string. -/
theorem build_correct (d : DorkData) :
    build d = joinSep (specSep d) (specSegments d) ∧
    (d.site = "" ∧ d.inurl = "" ∧ d.intitle = "" ∧ d.filetype = "" ∧ d.intext = "" →
      build d = "") := by
  have hmain : build d = joinSep (specSep d) (specSegments d) := by
    unfold build specSep specSegments
    by_cases ho : trimStr d.operator = "" <;>
    by_cases hs : d.site = "" <;> by_cases hu : d.inurl = "" <;>
    by_cases ht : d.intitle = "" <;> by_cases hf : d.filetype = "" <;>
    by_cases hx : d.intext = "" <;>
      simp [ho, hs, hu, ht, hf, hx, Bool.not_eq_true', data_isEmpty_true_iff,
        data_isEmpty_false_iff, data_eq_nil_iff]
  refine ⟨hmain, fun hall => ?_⟩
  rw [hmain]
  obtain ⟨h1, h2, h3, h4, h5⟩ := hall
  simp [specSegments, h1, h2, h3, h4, h5, joinSep]

/-- Witness for C2: the all-empty field set builds the empty string. -/
theorem build_correct_witness : build DorkData.default = "" :=
  (build_correct DorkData.default).2 ⟨rfl, rfl, rfl, rfl, rfl⟩

/-! ### C1: template selection -/

/-- C1: with category "CatB" selected, the filtered view's template 0 is
`tplB`, yet `selectTemplate(0)` copies the fields of `tplA` — entry 0 of the
FULL catalog (`apply_template` indexes `TEMPLATES`, not the filtered list).
The rest of the transition behaves as claimed: the operator is untouched and
`build` plus the history append run on the result. -/
theorem select_template_uses_full_catalog :
    filter_dorks_by_category demoCatalog "CatB" = [tplB] ∧
    select_template demoCatalog demoApp 0 =
      some { data := ⟨"siteA.com", "", "", "", "", "OR"⟩, query := "site:siteA.com",
             history := ["site:siteA.com"], saved := ["site:siteA.com"],
             selected_template := 0, selected_history := 0,
             selected_category := "CatB" } ∧
    tplA.site ≠ tplB.site := by
  decide

/-! Token-level lemmas for the parse direction. -/

theorem mk_eq_iff (cs : List Char) (r : String) : (⟨cs⟩ : String) = r ↔ cs = r.data :=
  ⟨fun h => congrArg String.data h, fun h => String.ext h⟩

theorem stripPreChars_eq_some_iff :
    ∀ (p s r : List Char), stripPreChars p s = some r ↔ s = p ++ r
  | [], s, r => by simp [stripPreChars]
  | a :: ps, [], r => by simp [stripPreChars]
  | a :: ps, c :: cs, r => by
    by_cases hca : c = a
    · rw [stripPreChars, if_pos hca, stripPreChars_eq_some_iff ps cs r]
      simp [hca]
    · rw [stripPreChars, if_neg hca]
      simp [hca]

theorem stripPre_eq_some_iff (p s r : String) :
    stripPre p s = some r ↔ s.data = p.data ++ r.data := by
  rw [stripPre]
  cases h : stripPreChars p.data s.data with
  | none =>
    have hns : ¬ s.data = p.data ++ r.data := fun hc => by
      have hsome := (stripPreChars_eq_some_iff p.data s.data r.data).mpr hc
      rw [h] at hsome
      exact Option.noConfusion hsome
    simp [hns]
  | some cs =>
    rw [stripPreChars_eq_some_iff] at h
    simp [h, mk_eq_iff]

theorem stripPre_eq_none_iff (p s : String) :
    stripPre p s = none ↔ ∀ r : String, s.data ≠ p.data ++ r.data := by
  constructor
  · intro h r hc
    have := (stripPre_eq_some_iff p s r).mpr hc
    rw [h] at this
    exact Option.noConfusion this
  · intro h
    cases hcase : stripPre p s with
    | none => rfl
    | some r => exact absurd ((stripPre_eq_some_iff p s r).mp hcase) (h r)

theorem stripPre_none_of_other (p q t r : String) (h : stripPre p t = some r)
    (hpq : ∀ r2 : String, p.data ++ r.data ≠ q.data ++ r2.data) :
    stripPre q t = none := by
  rw [stripPre_eq_some_iff] at h
  rw [stripPre_eq_none_iff]
  intro r2 hc
  exact hpq r2 (h ▸ hc)

theorem lastRemainder_cons_getD (p t : String) (ts : List String) (v : String) :
    (lastRemainder p (t :: ts)).getD v =
      (lastRemainder p ts).getD ((stripPre p t).getD v) := by
  simp only [lastRemainder]
  cases h : lastRemainder p ts <;> simp

theorem foldl_applyToken :
    ∀ (ts : List String) (d : DorkData), ts.foldl applyToken d =
      { site := (lastRemainder "site:" ts).getD d.site,
        inurl := (lastRemainder "inurl:" ts).getD d.inurl,
        intitle := (lastRemainder "intitle:" ts).getD d.intitle,
        filetype := (lastRemainder "filetype:" ts).getD d.filetype,
        intext := joinInto d.intext (ts.filter isPlain),
        operator := d.operator }
  | [], d => rfl
  | t :: ts, d => by
    rw [List.foldl_cons, foldl_applyToken ts (applyToken d t)]
    simp only [lastRemainder_cons_getD]
    rcases h1 : stripPre "inurl:" t with _ | r1
    · rcases h2 : stripPre "intitle:" t with _ | r2
      · rcases h3 : stripPre "filetype:" t with _ | r3
        · rcases h4 : stripPre "site:" t with _ | r4
          · have hp : isPlain t = true := by simp [isPlain, h1, h2, h3, h4]
            simp [applyToken, h1, h2, h3, h4, hp, joinInto]
          · have hp : isPlain t = false := by simp [isPlain, h4]
            simp [applyToken, h1, h2, h3, h4, hp]
        · have h4n : stripPre "site:" t = none :=
            stripPre_none_of_other "filetype:" "site:" t r3 h3 (fun r2 => by simp)
          have hp : isPlain t = false := by simp [isPlain, h3]
          simp [applyToken, h1, h2, h3, h4n, hp]
      · have h3n : stripPre "filetype:" t = none :=
          stripPre_none_of_other "intitle:" "filetype:" t r2 h2 (fun r2 => by simp)
        have h4n : stripPre "site:" t = none :=
          stripPre_none_of_other "intitle:" "site:" t r2 h2 (fun r2 => by simp)
        have hp : isPlain t = false := by simp [isPlain, h2]
        simp [applyToken, h1, h2, h3n, h4n, hp]
    · have h2n : stripPre "intitle:" t = none :=
        stripPre_none_of_other "inurl:" "intitle:" t r1 h1 (fun r2 => by simp)
      have h3n : stripPre "filetype:" t = none :=
        stripPre_none_of_other "inurl:" "filetype:" t r1 h1 (fun r2 => by simp)
      have h4n : stripPre "site:" t = none :=
        stripPre_none_of_other "inurl:" "site:" t r1 h1 (fun r2 => by simp)
      have hp : isPlain t = false := by simp [isPlain, h1]
      simp [applyToken, h1, h2n, h3n, h4n, hp]

theorem append_space_ne_empty (a b : String) : a ++ " " ++ b ≠ "" := by
  rw [Ne, eq_empty_iff_data, String.data_append, String.data_append]
  simp

theorem joinInto_eq_joinSep :
    ∀ (ts : List String) (base : String), (∀ t ∈ ts, t ≠ "") →
      joinInto base ts =
        (if base = "" then joinSep " " ts
         else if ts = [] then base else base ++ " " ++ joinSep " " ts)
  | [], base, _ => by
    by_cases hb : base = "" <;> simp [joinInto, joinSep, hb]
  | t :: ts, base, h => by
    have hts : ∀ x ∈ ts, x ≠ "" := fun x hx => h x (List.mem_cons_of_mem t hx)
    have htne : t ≠ "" := h t (List.mem_cons_self t ts)
    have hstep : joinInto base (t :: ts) =
        joinInto (if base.data.isEmpty then t else base ++ " " ++ t) ts := rfl
    rw [hstep]
    by_cases hb : base = ""
    · rw [if_pos ((data_isEmpty_true_iff base).mpr hb)]
      rw [joinInto_eq_joinSep ts t hts]
      cases ts with
      | nil => simp [joinSep, hb, htne]
      | cons x xs => simp [joinSep, hb, htne]
    · rw [if_neg (by rw [Bool.not_eq_true, data_isEmpty_false_iff]; exact hb)]
      rw [joinInto_eq_joinSep ts (base ++ " " ++ t) hts]
      cases ts with
      | nil => simp [joinSep, hb, append_space_ne_empty]
      | cons x xs =>
        rw [if_neg (append_space_ne_empty base t), if_neg (List.cons_ne_nil x xs),
          if_neg hb, if_neg (List.cons_ne_nil t (x :: xs))]
        show base ++ " " ++ t ++ " " ++ joinSep " " (x :: xs) =
          base ++ " " ++ joinSep " " (t :: x :: xs)
        rw [joinSep]
        apply String.ext
        simp [String.data_append]

theorem wsTokens_ne_nil : ∀ (cs : List Char), ∀ t ∈ wsTokens cs, t ≠ []
  | [], t, ht => absurd ht (by simp [wsTokens])
  | [c], t, ht => by
    rw [wsTokens] at ht
    by_cases hc : isWs c
    · rw [if_pos hc] at ht
      exact absurd ht (List.not_mem_nil t)
    · rw [if_neg hc] at ht
      rw [List.mem_singleton] at ht
      simp [ht]
  | c :: c2 :: cs, t, ht => by
    rw [wsTokens] at ht
    by_cases hc : isWs c
    · rw [if_pos hc] at ht
      exact wsTokens_ne_nil (c2 :: cs) t ht
    · rw [if_neg hc] at ht
      by_cases hc2 : isWs c2
      · rw [if_pos hc2] at ht
        rcases List.mem_cons.mp ht with h | h
        · simp [h]
        · exact wsTokens_ne_nil (c2 :: cs) t h
      · rw [if_neg hc2] at ht
        cases hrest : wsTokens (c2 :: cs) with
        | nil =>
          rw [hrest] at ht
          rw [List.mem_singleton] at ht
          simp [ht]
        | cons tk tks =>
          rw [hrest] at ht
          rcases List.mem_cons.mp ht with h | h
          · simp [h]
          · exact wsTokens_ne_nil (c2 :: cs) t (by rw [hrest]; exact List.mem_cons_of_mem tk h)

theorem tokensOf_ne_empty (q : String) : ∀ t ∈ tokensOf q, t ≠ "" := by
  intro t ht
  rw [tokensOf, List.mem_map] at ht
  obtain ⟨cs, hcs, hmk⟩ := ht
  rw [← hmk, Ne, mk_eq_iff]
  exact wsTokens_ne_nil q.data cs hcs

/-- C3: `apply_query_string` leaves the operator exactly as it was, ends
with each of site/inurl/intitle/filetype holding the remainder of the LAST
whitespace-separated token of the query carrying that marker (or empty when
no token does — the field was reset), and appends every token matching no
marker to the pre-existing `intext` value, space-joined, in encounter
order, without clearing `intext` first. -/
theorem apply_query_string_correct (d : DorkData) (q : String) :
    (apply_query_string d q).operator = d.operator ∧
    (apply_query_string d q).site = (lastRemainder "site:" (tokensOf q)).getD "" ∧
    (apply_query_string d q).inurl = (lastRemainder "inurl:" (tokensOf q)).getD "" ∧
    (apply_query_string d q).intitle = (lastRemainder "intitle:" (tokensOf q)).getD "" ∧
    (apply_query_string d q).filetype = (lastRemainder "filetype:" (tokensOf q)).getD "" ∧
    (apply_query_string d q).intext =
      (if d.intext = "" then joinSep " " ((tokensOf q).filter isPlain)
       else if (tokensOf q).filter isPlain = [] then d.intext
       else d.intext ++ " " ++ joinSep " " ((tokensOf q).filter isPlain)) := by
  have hfold : apply_query_string d q =
      { site := (lastRemainder "site:" (tokensOf q)).getD "",
        inurl := (lastRemainder "inurl:" (tokensOf q)).getD "",
        intitle := (lastRemainder "intitle:" (tokensOf q)).getD "",
        filetype := (lastRemainder "filetype:" (tokensOf q)).getD "",
        intext := joinInto d.intext ((tokensOf q).filter isPlain),
        operator := d.operator } :=
    foldl_applyToken (tokensOf q) _
  rw [hfold]
  refine ⟨rfl, rfl, rfl, rfl, rfl, ?_⟩
  exact joinInto_eq_joinSep _ d.intext
    (fun t ht => tokensOf_ne_empty q t (List.mem_of_mem_filter ht))

theorem ws_cons_skip (c : Char) (r : List Char) (h : isWs c = true) :
    wsTokens (c :: r) = wsTokens r := by
  cases r with
  | nil => simp [wsTokens, h]
  | cons c2 cs => rw [wsTokens, if_pos h]

theorem wsTokens_single : ∀ cs : List Char, cs ≠ [] → (∀ c ∈ cs, isWs c = false) →
    wsTokens cs = [cs]
  | [], h, _ => absurd rfl h
  | [c], _, hn => by
    rw [wsTokens, if_neg (by simp [hn c (List.mem_singleton_self c)])]
  | c :: c2 :: cs, _, hn => by
    have hc : isWs c = false := hn c (by simp)
    have hc2 : isWs c2 = false := hn c2 (by simp)
    have hrest : wsTokens (c2 :: cs) = [c2 :: cs] :=
      wsTokens_single (c2 :: cs) (List.cons_ne_nil c2 cs)
        (fun x hx => hn x (List.mem_cons_of_mem c hx))
    rw [wsTokens, if_neg (by simp [hc]), if_neg (by simp [hc2]), hrest]

theorem wsTokens_append : ∀ (A : List Char), ∀ r : List Char, A ≠ [] →
    (∀ c ∈ A, isWs c = false) → wsTokens (A ++ ' ' :: r) = A :: wsTokens r
  | [], _, h, _ => absurd rfl h
  | [a], r, _, hn => by
    have ha : isWs a = false := hn a (by simp)
    show wsTokens (a :: ' ' :: r) = [a] :: wsTokens r
    rw [wsTokens, if_neg (by simp [ha]), if_pos (by decide), ws_cons_skip ' ' r (by decide)]
  | a :: b :: A, r, _, hn => by
    have ha : isWs a = false := hn a (by simp)
    have hb : isWs b = false := hn b (by simp)
    have hrest : wsTokens ((b :: A) ++ ' ' :: r) = (b :: A) :: wsTokens r :=
      wsTokens_append (b :: A) r (List.cons_ne_nil b A)
        (fun x hx => hn x (List.mem_cons_of_mem a hx))
    show wsTokens (a :: b :: (A ++ ' ' :: r)) = (a :: b :: A) :: wsTokens r
    rw [wsTokens.eq_3, if_neg (by simp [ha]), if_neg (by simp [hb])]
    rw [show b :: (A ++ ' ' :: r) = (b :: A) ++ ' ' :: r from rfl, hrest]

/-- C4 (amended): a field set whose only non-empty fields are `site` and
`filetype`, with whitespace-free values and an operator that trims to
empty, is reproduced exactly by `parse (build fs)`; the quoted fields do
not round-trip (see the counterexample). -/
theorem roundtrip_site_filetype (s f op : String)
    (hs : ∀ c ∈ s.data, isWs c = false) (hf : ∀ c ∈ f.data, isWs c = false)
    (hop : trimStr op = "") :
    apply_query_string ⟨s, "", "", f, "", op⟩ (build ⟨s, "", "", f, "", op⟩) =
      ⟨s, "", "", f, "", op⟩ := by
  have hsiteChars : ∀ c ∈ ("site:" : String).data, isWs c = false := by decide
  have hfileChars : ∀ c ∈ ("filetype:" : String).data, isWs c = false := by decide
  by_cases hse : s = "" <;> by_cases hfe : f = ""
  · subst hse; subst hfe
    have hb : build ⟨"", "", "", "", "", op⟩ = "" := by simp [build, joinSep]
    rw [hb]
    rfl
  · -- s = "", f ≠ ""
    subst hse
    have hfE : f.data.isEmpty = false := (data_isEmpty_false_iff f).mpr hfe
    have hb : build ⟨"", "", "", f, "", op⟩ = "filetype:" ++ f := by
      simp [build, hfE, joinSep]
    rw [hb]
    have hA_ne : ("filetype:" ++ f).data ≠ [] := by
      rw [String.data_append]; simp
    have hA_nws : ∀ c ∈ ("filetype:" ++ f).data, isWs c = false := by
      rw [String.data_append]
      intro c hc
      rcases List.mem_append.mp hc with h | h
      · exact hfileChars c h
      · exact hf c h
    have htok : tokensOf ("filetype:" ++ f) = ["filetype:" ++ f] := by
      rw [tokensOf, wsTokens_single _ hA_ne hA_nws]
      rfl
    show (tokensOf ("filetype:" ++ f)).foldl applyToken ⟨"", "", "", "", "", op⟩ =
      ⟨"", "", "", f, "", op⟩
    rw [htok, foldl_applyToken]
    have hsome : stripPre "filetype:" ("filetype:" ++ f) = some f :=
      (stripPre_eq_some_iff _ _ _).mpr (String.data_append _ _)
    have hn1 : stripPre "inurl:" ("filetype:" ++ f) = none := by
      rw [stripPre_eq_none_iff]
      intro r2 hc
      rw [String.data_append] at hc
      simp at hc
    have hn2 : stripPre "intitle:" ("filetype:" ++ f) = none := by
      rw [stripPre_eq_none_iff]
      intro r2 hc
      rw [String.data_append] at hc
      simp at hc
    have hn4 : stripPre "site:" ("filetype:" ++ f) = none := by
      rw [stripPre_eq_none_iff]
      intro r2 hc
      rw [String.data_append] at hc
      simp at hc
    have hpl : isPlain ("filetype:" ++ f) = false := by
      rw [isPlain, hsome]
      rfl
    simp only [lastRemainder, hsome, hn1, hn2, hn4, List.filter_cons, hpl,
      List.filter_nil, Option.getD_some, Option.getD_none, joinInto, List.foldl_nil]
    rfl
  · -- s ≠ "", f = ""
    subst hfe
    have hsE : s.data.isEmpty = false := (data_isEmpty_false_iff s).mpr hse
    have hb : build ⟨s, "", "", "", "", op⟩ = "site:" ++ s := by
      simp [build, hsE, joinSep]
    rw [hb]
    have hA_ne : ("site:" ++ s).data ≠ [] := by
      rw [String.data_append]; simp
    have hA_nws : ∀ c ∈ ("site:" ++ s).data, isWs c = false := by
      rw [String.data_append]
      intro c hc
      rcases List.mem_append.mp hc with h | h
      · exact hsiteChars c h
      · exact hs c h
    have htok : tokensOf ("site:" ++ s) = ["site:" ++ s] := by
      rw [tokensOf, wsTokens_single _ hA_ne hA_nws]
      rfl
    show (tokensOf ("site:" ++ s)).foldl applyToken ⟨"", "", "", "", "", op⟩ =
      ⟨s, "", "", "", "", op⟩
    rw [htok, foldl_applyToken]
    have hsome : stripPre "site:" ("site:" ++ s) = some s :=
      (stripPre_eq_some_iff _ _ _).mpr (String.data_append _ _)
    have hn1 : stripPre "inurl:" ("site:" ++ s) = none := by
      rw [stripPre_eq_none_iff]
      intro r2 hc
      rw [String.data_append] at hc
      simp at hc
    have hn2 : stripPre "intitle:" ("site:" ++ s) = none := by
      rw [stripPre_eq_none_iff]
      intro r2 hc
      rw [String.data_append] at hc
      simp at hc
    have hn3 : stripPre "filetype:" ("site:" ++ s) = none := by
      rw [stripPre_eq_none_iff]
      intro r2 hc
      rw [String.data_append] at hc
      simp at hc
    have hpl : isPlain ("site:" ++ s) = false := by
      rw [isPlain, hsome, hn1, hn2, hn3]
      rfl
    simp only [lastRemainder, hsome, hn1, hn2, hn3, List.filter_cons, hpl,
      List.filter_nil, Option.getD_some, Option.getD_none, joinInto, List.foldl_nil]
    rfl
  · -- both non-empty
    have hsE : s.data.isEmpty = false := (data_isEmpty_false_iff s).mpr hse
    have hfE : f.data.isEmpty = false := (data_isEmpty_false_iff f).mpr hfe
    have hb : build ⟨s, "", "", f, "", op⟩ = "site:" ++ s ++ " " ++ ("filetype:" ++ f) := by
      simp [build, hop, hsE, hfE, joinSep]
    have hA_ne : ("site:" ++ s).data ≠ [] := by
      rw [String.data_append]; simp
    have hA_nws : ∀ c ∈ ("site:" ++ s).data, isWs c = false := by
      rw [String.data_append]
      intro c hc
      rcases List.mem_append.mp hc with h | h
      · exact hsiteChars c h
      · exact hs c h
    have hB_ne : ("filetype:" ++ f).data ≠ [] := by
      rw [String.data_append]; simp
    have hB_nws : ∀ c ∈ ("filetype:" ++ f).data, isWs c = false := by
      rw [String.data_append]
      intro c hc
      rcases List.mem_append.mp hc with h | h
      · exact hfileChars c h
      · exact hf c h
    have hdata : ("site:" ++ s ++ " " ++ ("filetype:" ++ f)).data =
        ("site:" ++ s).data ++ ' ' :: ("filetype:" ++ f).data := by
      rw [String.data_append, String.data_append, List.append_assoc]
      rfl
    have htok : tokensOf ("site:" ++ s ++ " " ++ ("filetype:" ++ f)) =
        ["site:" ++ s, "filetype:" ++ f] := by
      rw [tokensOf, hdata, wsTokens_append _ _ hA_ne hA_nws,
        wsTokens_single _ hB_ne hB_nws]
      rfl
    rw [hb]
    show (tokensOf ("site:" ++ s ++ " " ++ ("filetype:" ++ f))).foldl applyToken
      ⟨"", "", "", "", "", op⟩ = ⟨s, "", "", f, "", op⟩
    rw [htok, foldl_applyToken]
    have hsomeA : stripPre "site:" ("site:" ++ s) = some s :=
      (stripPre_eq_some_iff _ _ _).mpr (String.data_append _ _)
    have hsomeB : stripPre "filetype:" ("filetype:" ++ f) = some f :=
      (stripPre_eq_some_iff _ _ _).mpr (String.data_append _ _)
    have hnA1 : stripPre "inurl:" ("site:" ++ s) = none := by
      rw [stripPre_eq_none_iff]
      intro r2 hc
      rw [String.data_append] at hc
      simp at hc
    have hnA2 : stripPre "intitle:" ("site:" ++ s) = none := by
      rw [stripPre_eq_none_iff]
      intro r2 hc
      rw [String.data_append] at hc
      simp at hc
    have hnA3 : stripPre "filetype:" ("site:" ++ s) = none := by
      rw [stripPre_eq_none_iff]
      intro r2 hc
      rw [String.data_append] at hc
      simp at hc
    have hnB1 : stripPre "inurl:" ("filetype:" ++ f) = none := by
      rw [stripPre_eq_none_iff]
      intro r2 hc
      rw [String.data_append] at hc
      simp at hc
    have hnB2 : stripPre "intitle:" ("filetype:" ++ f) = none := by
      rw [stripPre_eq_none_iff]
      intro r2 hc
      rw [String.data_append] at hc
      simp at hc
    have hnB4 : stripPre "site:" ("filetype:" ++ f) = none := by
      rw [stripPre_eq_none_iff]
      intro r2 hc
      rw [String.data_append] at hc
      simp at hc
    have hplA : isPlain ("site:" ++ s) = false := by
      rw [isPlain, hsomeA, hnA1, hnA2, hnA3]
      rfl
    have hplB : isPlain ("filetype:" ++ f) = false := by
      rw [isPlain, hsomeB]
      rfl
    simp only [lastRemainder, hsomeA, hsomeB, hnA1, hnA2, hnA3, hnB1, hnB2, hnB4,
      List.filter_cons, hplA, hplB, List.filter_nil, Option.getD_some,
      Option.getD_none, joinInto, List.foldl_nil]
    rfl

/-- Witness for C4 at the spec's example input site="example.com" (with
filetype="pdf"). -/
theorem roundtrip_site_filetype_witness :
    apply_query_string ⟨"example.com", "", "", "pdf", "", ""⟩
        (build ⟨"example.com", "", "", "pdf", "", ""⟩) =
      ⟨"example.com", "", "", "pdf", "", ""⟩ :=
  roundtrip_site_filetype "example.com" "pdf" "" (by decide) (by decide) (by decide)

/-- C4 counterexample to the claim as stated: single whitespace-free token
values do NOT all round-trip through `build` then `parse` — the quoting of
inurl/intitle/intext is never stripped (inurl="admin" comes back as
"\"admin\""), the intext segment token re-accumulates onto the unreset
intext field, and a non-empty operator leaks its token into intext. -/
theorem roundtrip_fails_as_stated :
    (apply_query_string ⟨"", "admin", "", "", "", ""⟩
      (build ⟨"", "admin", "", "", "", ""⟩)).inurl = "\"admin\"" ∧
    apply_query_string ⟨"", "admin", "", "", "", ""⟩
      (build ⟨"", "admin", "", "", "", ""⟩) ≠ ⟨"", "admin", "", "", "", ""⟩ ∧
    apply_query_string ⟨"", "", "login", "", "", ""⟩
      (build ⟨"", "", "login", "", "", ""⟩) ≠ ⟨"", "", "login", "", "", ""⟩ ∧
    apply_query_string ⟨"", "", "", "", "hello", ""⟩
      (build ⟨"", "", "", "", "hello", ""⟩) ≠ ⟨"", "", "", "", "hello", ""⟩ ∧
    apply_query_string ⟨"a.com", "", "", "pdf", "", "OR"⟩
      (build ⟨"a.com", "", "", "pdf", "", "OR"⟩) ≠ ⟨"a.com", "", "", "pdf", "", "OR"⟩ := by
  decide


end DorkBuilder
